import Mathlib

/-!
Verification development for the BookToPodCast pipeline (src/index.js).

The file embeds, as executable Lean definitions over `List Char`, the three
algorithmic parts of the program:

* `cleanText` — the text normalizer (src/index.js lines 38-46), a chain of
  five global regex replacements followed by a trim;
* `chunkText` — the chunking loop (src/index.js lines 78-96) that splits the
  normalized text into bounded segments, preferring a ". " boundary, then a
  plain space, then a hard cut;
* `selectChunks` / `synthLoop` / `outputFile` — the range selection
  (lines 100-106), the synthesis loop (lines 113-174, with the external
  text-to-speech collaborator modelled as an oracle indexed by the loop
  counter) and the output write decision (lines 177-190).

Loops whose cursor advances by a computed amount are written with an explicit
fuel argument (fuel = remaining length bounds the iteration count, one unit
per iteration); fuel sufficiency is proved where a claim needs it.
-/

/-- Character class of the JavaScript regex `\s` (also the set trimmed by
`String.prototype.trim`): ASCII whitespace, NBSP, Unicode space separators,
line/paragraph separators and the BOM. -/
def isJsSpace (c : Char) : Bool :=
  let n := c.toNat
  n = 0x20 || n = 0x09 || n = 0x0a || n = 0x0b || n = 0x0c || n = 0x0d ||
  n = 0xa0 || n = 0x1680 || (0x2000 ≤ n && n ≤ 0x200a) ||
  n = 0x2028 || n = 0x2029 || n = 0x202f || n = 0x205f || n = 0x3000 || n = 0xfeff

/-- JavaScript `\d`. -/
def isJsDigit (c : Char) : Bool :=
  0x30 ≤ c.toNat && c.toNat ≤ 0x39

/-- `String.prototype.trim`: removes leading and trailing whitespace. -/
def jsTrim (l : List Char) : List Char :=
  (((l.dropWhile isJsSpace).reverse.dropWhile isJsSpace)).reverse

/-- One attempt of the page-marker regex `--\s*\d+\s*of\s*\d+\s*--`
(src/index.js line 40) anchored at the head of the list; on success returns
the remainder of the list after the match.  The character classes of adjacent
greedy pieces are disjoint, so the backtracking regex match is exactly this
maximal-run scan. -/
def markerTail (l : List Char) : Option (List Char) :=
  match l with
  | '-' :: '-' :: r =>
    let r1 := r.dropWhile isJsSpace
    let d1 := r1.takeWhile isJsDigit
    if d1.length = 0 then none
    else
      match (r1.dropWhile isJsDigit).dropWhile isJsSpace with
      | 'o' :: 'f' :: r2 =>
        let r3 := r2.dropWhile isJsSpace
        let d2 := r3.takeWhile isJsDigit
        if d2.length = 0 then none
        else
          match (r3.dropWhile isJsDigit).dropWhile isJsSpace with
          | '-' :: '-' :: r4 => some r4
          | _ => none
      | _ => none
  | _ => none

/-- Global replacement of the page-marker pattern by the empty string
(`.replace(/--\s*\d+\s*of\s*\d+\s*--/g, "")`).  Scans left to right; after a
match, scanning continues from the remainder (JavaScript semantics: the text
already emitted is not rescanned).  One unit of fuel is spent per scanned
position; each step consumes at least one character, so `l.length` fuel is
always sufficient and the out-of-fuel branch is never reached from
`removeMarkers`. -/
def removeMarkersF : Nat → List Char → List Char
  | 0, l => l
  | _ + 1, [] => []
  | fuel + 1, c :: t =>
    match markerTail (c :: t) with
    | some r => removeMarkersF fuel r
    | none => c :: removeMarkersF fuel t

def removeMarkers (l : List Char) : List Char :=
  removeMarkersF l.length l

/-- Index of the last `'\n'` in a list, if any. -/
def lastNlIdx : List Char → Option Nat
  | [] => none
  | c :: t =>
    match lastNlIdx t with
    | some j => some (j + 1)
    | none => if c = '\n' then some 0 else none

/-- One attempt of the regex `\n\s*\n` (src/index.js line 41) anchored at the
head: a newline, then the greedy-longest run of whitespace whose following
character can serve as the closing newline.  Since `\s` contains `'\n'`, the
greedy match ends at the last `'\n'` inside the maximal whitespace run after
the opening newline.  Returns the remainder after the match. -/
def nlPairTail (l : List Char) : Option (List Char) :=
  match l with
  | c :: r =>
    if c = '\n' then
      match lastNlIdx (r.takeWhile isJsSpace) with
      | some j => some (r.drop (j + 1))
      | none => none
    else none
  | [] => none

/-- Global replacement `.replace(/\n\s*\n/g, " ")`, same scanning scheme as
`removeMarkersF`. -/
def collapseNlRunsF : Nat → List Char → List Char
  | 0, l => l
  | _ + 1, [] => []
  | fuel + 1, c :: t =>
    match nlPairTail (c :: t) with
    | some r => ' ' :: collapseNlRunsF fuel r
    | none => c :: collapseNlRunsF fuel t

def collapseNlRuns (l : List Char) : List Char :=
  collapseNlRunsF l.length l

/-- `.replace(/\n/g, " ")` (src/index.js line 42). -/
def mapNewlines (l : List Char) : List Char :=
  l.map (fun c => if c = '\n' then ' ' else c)

/-- `.replace(/\s+/g, " ")` (src/index.js line 43): every maximal whitespace
run becomes one space.  The flag records whether the scanner is inside a run
whose space has already been emitted. -/
def collapseWsAux : Bool → List Char → List Char
  | _, [] => []
  | inRun, c :: t =>
    if isJsSpace c then
      if inRun then collapseWsAux true t else ' ' :: collapseWsAux true t
    else c :: collapseWsAux false t

def collapseWs (l : List Char) : List Char :=
  collapseWsAux false l

/-- `.replace(/[^\x20-\x7E]/g, " ")` (src/index.js line 44). -/
def asciiFix (c : Char) : Char :=
  if 0x20 ≤ c.toNat ∧ c.toNat ≤ 0x7e then c else ' '

def mapNonAscii (l : List Char) : List Char :=
  l.map asciiFix

/-- The normalizer `cleanText` (src/index.js lines 38-46): the five global
replacements in source order, then `trim()`. -/
def cleanText (text : List Char) : List Char :=
  jsTrim (mapNonAscii (collapseWs (mapNewlines (collapseNlRuns (removeMarkers text)))))

/-- Forward scan behind `jsLastIndexOf`: the last position `i ≤ fromIdx` at
which `pat` occurs in the list (`i` is the index of the head of the current
suffix; `best` accumulates the best match seen so far). -/
def lastIdxAux (pat : List Char) (fromIdx : Nat) : List Char → Nat → Option Nat → Option Nat
  | [], _, best => best
  | c :: t, i, best =>
    lastIdxAux pat fromIdx t (i + 1)
      (if i ≤ fromIdx ∧ pat.isPrefixOf (c :: t) = true then some i else best)

/-- JavaScript `String.prototype.lastIndexOf(pat, fromIdx)` for a non-empty
pattern: the largest index `≤ fromIdx` at which `pat` starts, or `-1`. -/
def jsLastIndexOf (s pat : List Char) (fromIdx : Nat) : Int :=
  match lastIdxAux pat fromIdx s 0 none with
  | some j => (j : Int)
  | none => -1

/-- Tail-recursive list length (`.length` on JavaScript strings/arrays).
Used in the loop definitions so that concrete evaluation by the kernel is
iterative; `listLen_eq_length` below identifies it with `List.length`. -/
def listLenAux {α : Type} : Nat → List α → Nat
  | n, [] => n
  | n, _ :: t => listLenAux (n + 1) t

def listLen {α : Type} (l : List α) : Nat :=
  listLenAux 0 l

/-- `MAX_CHUNK_SIZE` (src/index.js line 78). -/
def MAX_CHUNK_SIZE : Nat := 2900

/-- One iteration of the chunking loop's boundary search (src/index.js lines
83-90): the value of `end` after the body's boundary adjustment, for cursor
`pos`.  `end` starts at `pos + maxSize`; if more text remains, the loop looks
for the last ". " at or before `end`, falls back to the last " " when that is
missing or not strictly after `pos`, and moves `end` to `boundary + 1` when
the boundary is strictly after `pos`. -/
def chunkStepEnd (text : List Char) (maxSize pos : Nat) : Nat :=
  let e := pos + maxSize
  if e < listLen text then
    let b1 := jsLastIndexOf text ['.', ' '] e
    let b := if b1 = -1 ∨ b1 ≤ (pos : Int) then jsLastIndexOf text [' '] e else b1
    if (pos : Int) < b then (b + 1).toNat else e
  else e

/-- The chunking loop (src/index.js lines 82-96): while `pos < length`,
compute the chunk end, trim the substring `[pos, end)`, push it when
non-empty, and advance `pos` to `end`.  Structured with fuel (one unit per
iteration; the cursor advances by at least one when `0 < maxSize`, so
`text.length` fuel suffices — proved below). -/
def chunkLoopF (text : List Char) (maxSize : Nat) : Nat → Nat → List (List Char)
  | 0, _ => []
  | fuel + 1, pos =>
    if pos < listLen text then
      let e := chunkStepEnd text maxSize pos
      let c := jsTrim ((text.drop pos).take (e - pos))
      if 0 < listLen c then c :: chunkLoopF text maxSize fuel e
      else chunkLoopF text maxSize fuel e
    else []

/-- The chunk sequence the program builds from a text (`chunks` in the
source). -/
def chunkText (text : List Char) (maxSize : Nat) : List (List Char) :=
  chunkLoopF text maxSize (listLen text) 0

/-- The same loop, recording the raw (untrimmed) cursor segments
`text.substring(pos, end)` of every iteration, trimmed-empty ones included. -/
def rawChunkLoopF (text : List Char) (maxSize : Nat) : Nat → Nat → List (List Char)
  | 0, _ => []
  | fuel + 1, pos =>
    if pos < listLen text then
      let e := chunkStepEnd text maxSize pos
      ((text.drop pos).take (e - pos)) :: rawChunkLoopF text maxSize fuel e
    else []

def rawChunkText (text : List Char) (maxSize : Nat) : List (List Char) :=
  rawChunkLoopF text maxSize (listLen text) 0

/-- Concatenation of a list of byte/char lists (`Buffer.concat`, and the
reconstruction of the input from raw segments). -/
def joinAll {α : Type} (l : List (List α)) : List α :=
  l.foldr (fun a b => a ++ b) []

/-- Range selection (src/index.js lines 100-106): `startIdx = START_CHUNK - 1`,
`endIdx = MAX_CHUNKS_TO_PROCESS ? min(startIdx + MAX_CHUNKS_TO_PROCESS,
chunks.length) : chunks.length`, then `chunks.slice(startIdx, endIdx)`.
`maxChunks = none` models the config value `null`; JavaScript truthiness makes
`some 0` take the same branch as `null`.  `startChunk` is 1-based (the config
documents it so); the embedding uses truncated subtraction, faithful for
`1 ≤ startChunk`. -/
def selectChunks {α : Type} (chunks : List α) (startChunk : Nat) (maxChunks : Option Nat) : List α :=
  let startIdx := startChunk - 1
  let endIdx :=
    match maxChunks with
    | none => chunks.length
    | some m => if m = 0 then chunks.length else min (startIdx + m) chunks.length
  (chunks.take endIdx).drop startIdx

/-- Outcome of one synthesis attempt (`puter.ai.txt2speech` + `fetch` +
`Buffer.from`, src/index.js lines 133-139), the external speech-synthesis
collaborator: either audio bytes, or a thrown error whose flag records
`error.code === 'insufficient_funds'` (the fatal class, line 153). -/
inductive SynthResult : Type
  | success (audio : List Nat) : SynthResult
  | failure (fatal : Bool) : SynthResult

/-- Mutable state of the synthesis loop (src/index.js lines 109-111). -/
structure RunResult : Type where
  audioBuffers : List (List Nat)
  successCount : Nat
  failCount : Nat
deriving DecidableEq

/-- The synthesis loop (src/index.js lines 113-174) over the selected chunks,
with the external call modelled by `oracle` applied to the loop index:
skip (uncounted) when the trimmed chunk is empty; count a failure and
continue when it exceeds 3000 characters; on success push the buffer when
non-empty (else count a failure); on a thrown error count a failure and
break when it is the insufficient-funds error, else continue.  The
inter-chunk delay (line 172) has no effect on the state and is omitted. -/
def synthLoop (oracle : Nat → SynthResult) : List (List Char) → Nat → RunResult → RunResult
  | [], _, acc => acc
  | c :: rest, i, acc =>
    let t := jsTrim c
    if t.length = 0 then
      synthLoop oracle rest (i + 1) acc
    else if 3000 < t.length then
      synthLoop oracle rest (i + 1) { acc with failCount := acc.failCount + 1 }
    else
      match oracle i with
      | SynthResult.success buf =>
        if 0 < buf.length then
          synthLoop oracle rest (i + 1)
            { acc with audioBuffers := acc.audioBuffers ++ [buf],
                       successCount := acc.successCount + 1 }
        else
          synthLoop oracle rest (i + 1) { acc with failCount := acc.failCount + 1 }
      | SynthResult.failure fatal =>
        if fatal then { acc with failCount := acc.failCount + 1 }
        else synthLoop oracle rest (i + 1) { acc with failCount := acc.failCount + 1 }

/-- The output write decision (src/index.js lines 177-190): a file holding
`Buffer.concat(audioBuffers)` is written iff at least one buffer was
collected. -/
def outputFile (r : RunResult) : Option (List Nat) :=
  if 0 < r.audioBuffers.length then some (joinAll r.audioBuffers) else none

-- scratch checks (to be removed)
example : cleanText ("Page\n\n-- 3 of 10 --\nHello   world\n".toList) = "Page Hello world".toList := by decide
example : cleanText ("aééb".toList) = "a  b".toList := by decide
example : cleanText ("a  b".toList) = "a b".toList := by decide
example : cleanText ("-- -- 1 of 2 --3 of 4 --".toList) = "-- 3 of 4 --".toList := by decide
example : chunkText ("aaaaa. zzz".toList) 5 = ["aaaaa.".toList, "zzz".toList] := by decide
example : chunkText ("ab".toList) 1 = [['a'], ['b']] := by decide

/-- Concrete input refuting the per-chunk bound `M`: 2900 letters, then a
sentence boundary ". " starting exactly at index 2900, then more text. -/
def c1cexText : List Char :=
  List.replicate 2900 'a' ++ ('.' :: ' ' :: List.replicate 4 'b')

/-- `true` iff some suffix of the list starts with a page-marker match. -/
def hasMarkerMatch : List Char → Bool
  | [] => false
  | c :: t => (markerTail (c :: t)).isSome || hasMarkerMatch t

/-! ### Supporting lemmas -/

theorem listLenAux_eq (l : List Char) : ∀ n : Nat, listLenAux n l = n + l.length := by
  induction l with
  | nil => intro n; simp [listLenAux]
  | cons c t ih => intro n; simp [listLenAux, ih]; omega

theorem listLen_eq_length (l : List Char) : listLen l = l.length := by
  simp [listLen, listLenAux_eq]

theorem mem_of_mem_dropWhile {p : Char → Bool} {c : Char} :
    ∀ {l : List Char}, c ∈ l.dropWhile p → c ∈ l := by
  intro l
  induction l with
  | nil => simp [List.dropWhile]
  | cons a t ih =>
    simp only [List.dropWhile]
    intro h
    by_cases hp : p a
    · simp only [hp] at h
      exact List.mem_cons_of_mem a (ih h)
    · simp only [hp] at h
      exact h

theorem dropWhile_dropWhile (p : Char → Bool) (l : List Char) :
    (l.dropWhile p).dropWhile p = l.dropWhile p := by
  induction l with
  | nil => simp [List.dropWhile]
  | cons a t ih =>
    simp only [List.dropWhile]
    by_cases hp : p a
    · simpa [hp] using ih
    · simp [List.dropWhile, hp]

theorem dropWhile_eq_self_head {p : Char → Bool} {c : Char} {l : List Char}
    (h : List.dropWhile p (c :: l) = c :: l) : p c = false := by
  by_cases hp : p c
  · exfalso
    simp only [List.dropWhile, hp] at h
    have hle := (List.dropWhile_sublist (l := l) p).length_le
    rw [h] at hle
    simp at hle
  · simpa using hp

theorem dropWhile_prefix_self {p : Char → Bool} {c : Char} {v w : List Char}
    (h : List.dropWhile p (c :: (v ++ w)) = c :: (v ++ w)) :
    List.dropWhile p (c :: v) = c :: v := by
  have hc : p c = false := dropWhile_eq_self_head h
  simp [List.dropWhile, hc]

theorem jsTrim_dropWhile (l : List Char) : (jsTrim l).dropWhile isJsSpace = jsTrim l := by
  unfold jsTrim
  set u := l.dropWhile isJsSpace with hu
  have hself : u.dropWhile isJsSpace = u := by
    rw [hu]; exact dropWhile_dropWhile _ _
  have hsplit : u.reverse.takeWhile isJsSpace ++ u.reverse.dropWhile isJsSpace = u.reverse :=
    List.takeWhile_append_dropWhile isJsSpace u.reverse
  set d := u.reverse.dropWhile isJsSpace with hd
  have hu2 : u = d.reverse ++ (u.reverse.takeWhile isJsSpace).reverse := by
    have := congrArg List.reverse hsplit
    simpa [List.reverse_append] using this.symm
  cases hdr : d.reverse with
  | nil => simp [hdr]
  | cons c v =>
    rw [hdr] at hu2
    rw [hu2] at hself
    exact dropWhile_prefix_self hself

theorem jsTrim_idem (l : List Char) : jsTrim (jsTrim l) = jsTrim l := by
  conv_lhs => rw [jsTrim, jsTrim_dropWhile]
  have : (jsTrim l).reverse.dropWhile isJsSpace = (jsTrim l).reverse := by
    rw [jsTrim]
    simp only [List.reverse_reverse]
    exact dropWhile_dropWhile _ _
  rw [this, List.reverse_reverse]

theorem jsTrim_length_le (l : List Char) : (jsTrim l).length ≤ l.length := by
  unfold jsTrim
  have h1 := (List.dropWhile_sublist (l := l) isJsSpace).length_le
  have h2 := (List.dropWhile_sublist (l := (l.dropWhile isJsSpace).reverse) isJsSpace).length_le
  simp only [List.length_reverse] at *
  omega

theorem mem_jsTrim {c : Char} {l : List Char} (h : c ∈ jsTrim l) : c ∈ l := by
  unfold jsTrim at h
  rw [List.mem_reverse] at h
  have h2 := mem_of_mem_dropWhile h
  rw [List.mem_reverse] at h2
  exact mem_of_mem_dropWhile h2

theorem mem_mapNonAscii_printable {c : Char} {l : List Char} (h : c ∈ mapNonAscii l) :
    0x20 ≤ c.toNat ∧ c.toNat ≤ 0x7e := by
  rcases List.mem_map.mp h with ⟨a, _, rfl⟩
  unfold asciiFix
  by_cases ha : 0x20 ≤ a.toNat ∧ a.toNat ≤ 0x7e
  · simp [ha]
  · simp [ha]

theorem cleanText_mem_printable {s : List Char} {c : Char} (h : c ∈ cleanText s) :
    0x20 ≤ c.toNat ∧ c.toNat ≤ 0x7e :=
  mem_mapNonAscii_printable (mem_jsTrim h)

theorem collapseNlRunsF_no_nl {l : List Char} (hn : ∀ c ∈ l, c ≠ '\n') :
    ∀ fuel : Nat, collapseNlRunsF fuel l = l := by
  induction l with
  | nil => intro fuel; cases fuel <;> simp [collapseNlRunsF]
  | cons a t ih =>
    intro fuel
    cases fuel with
    | zero => simp [collapseNlRunsF]
    | succ f =>
      have ha : a ≠ '\n' := hn a (List.mem_cons_self a t)
      have hpair : nlPairTail (a :: t) = none := by
        simp [nlPairTail, ha]
      simp only [collapseNlRunsF, hpair]
      rw [ih (fun c hc => hn c (List.mem_cons_of_mem a hc)) f]

theorem mapNewlines_no_nl {l : List Char} (hn : ∀ c ∈ l, c ≠ '\n') :
    mapNewlines l = l := by
  unfold mapNewlines
  induction l with
  | nil => simp
  | cons a t ih =>
    have ha : a ≠ '\n' := hn a (List.mem_cons_self a t)
    simp only [List.map_cons, if_neg ha, List.cons.injEq, true_and]
    exact ih (fun c hc => hn c (List.mem_cons_of_mem a hc))

theorem mapNonAscii_printable_id {l : List Char}
    (hp : ∀ c ∈ l, 0x20 ≤ c.toNat ∧ c.toNat ≤ 0x7e) : mapNonAscii l = l := by
  unfold mapNonAscii
  induction l with
  | nil => simp
  | cons a t ih =>
    have ha := hp a (List.mem_cons_self a t)
    simp only [List.map_cons, asciiFix, if_pos ha, List.cons.injEq, true_and]
    exact ih (fun c hc => hp c (List.mem_cons_of_mem a hc))

theorem lastIdxAux_le {pat : List Char} {fromIdx : Nat} :
    ∀ (l : List Char) (i : Nat) (best : Option Nat),
      (∀ j, best = some j → j ≤ fromIdx) →
      ∀ j, lastIdxAux pat fromIdx l i best = some j → j ≤ fromIdx := by
  intro l
  induction l with
  | nil =>
    intro i best hb j h
    exact hb j h
  | cons c t ih =>
    intro i best hb j h
    simp only [lastIdxAux] at h
    refine ih (i + 1) _ ?_ j h
    intro k hk
    by_cases hc : i ≤ fromIdx ∧ pat.isPrefixOf (c :: t) = true
    · rw [if_pos hc] at hk
      cases hk
      exact hc.1
    · rw [if_neg hc] at hk
      exact hb k hk

theorem jsLastIndexOf_le (s pat : List Char) (fromIdx : Nat) :
    jsLastIndexOf s pat fromIdx ≤ (fromIdx : Int) := by
  unfold jsLastIndexOf
  cases h : lastIdxAux pat fromIdx s 0 none with
  | none => simp; omega
  | some j =>
    have := lastIdxAux_le s 0 none (by intro k hk; cases hk) j h
    simp
    omega

theorem chunkStepEnd_le (text : List Char) (maxSize pos : Nat) :
    chunkStepEnd text maxSize pos ≤ pos + maxSize + 1 := by
  unfold chunkStepEnd
  dsimp only
  split
  · have h1 := jsLastIndexOf_le text ['.', ' '] (pos + maxSize)
    have h2 := jsLastIndexOf_le text [' '] (pos + maxSize)
    split
    · split <;> omega
    · split <;> omega
  · omega

theorem chunkStepEnd_lt (text : List Char) (maxSize pos : Nat) (hM : 0 < maxSize) :
    pos < chunkStepEnd text maxSize pos := by
  unfold chunkStepEnd
  dsimp only
  split
  · split
    · split
      · omega
      · omega
    · split
      · omega
      · omega
  · omega

theorem chunkLoopF_mem_length_le (text : List Char) (maxSize : Nat) :
    ∀ (fuel pos : Nat) (c : List Char), c ∈ chunkLoopF text maxSize fuel pos →
      c.length ≤ maxSize + 1 := by
  intro fuel
  induction fuel with
  | zero => intro pos c h; simp [chunkLoopF] at h
  | succ f ih =>
    intro pos c h
    simp only [chunkLoopF] at h
    split at h
    · have hbound : (jsTrim ((text.drop pos).take (chunkStepEnd text maxSize pos - pos))).length
          ≤ maxSize + 1 := by
        have h1 := jsTrim_length_le ((text.drop pos).take (chunkStepEnd text maxSize pos - pos))
        have h2 : ((text.drop pos).take (chunkStepEnd text maxSize pos - pos)).length
            ≤ chunkStepEnd text maxSize pos - pos := by
          simp [List.length_take]
        have h3 := chunkStepEnd_le text maxSize pos
        omega
      split at h
      · rcases List.mem_cons.mp h with rfl | hmem
        · exact hbound
        · exact ih _ c hmem
      · exact ih _ c h
    · simp at h

theorem chunkLoopF_fuel_irrel (text : List Char) (maxSize : Nat) (hM : 0 < maxSize) :
    ∀ (f1 f2 pos : Nat), text.length - pos ≤ f1 → text.length - pos ≤ f2 →
      chunkLoopF text maxSize f1 pos = chunkLoopF text maxSize f2 pos := by
  intro f1
  induction f1 with
  | zero =>
    intro f2 pos h1 _
    have hpos : ¬ pos < listLen text := by
      rw [listLen_eq_length]; omega
    cases f2 with
    | zero => rfl
    | succ g => simp [chunkLoopF, hpos]
  | succ f ih =>
    intro f2 pos h1 h2
    cases f2 with
    | zero =>
      have hpos : ¬ pos < listLen text := by
        rw [listLen_eq_length]; omega
      simp [chunkLoopF, hpos]
    | succ g =>
      simp only [chunkLoopF]
      by_cases hpos : pos < listLen text
      · rw [if_pos hpos, if_pos hpos]
        have hadv := chunkStepEnd_lt text maxSize pos hM
        have hlt : pos < text.length := by rw [listLen_eq_length] at hpos; exact hpos
        have hrec := ih g (chunkStepEnd text maxSize pos) (by omega) (by omega)
        rw [hrec]
      · rw [if_neg hpos, if_neg hpos]

theorem rawChunkLoopF_join (text : List Char) (maxSize : Nat) (hM : 0 < maxSize) :
    ∀ (fuel pos : Nat), text.length - pos ≤ fuel →
      joinAll (rawChunkLoopF text maxSize fuel pos) = text.drop pos := by
  intro fuel
  induction fuel with
  | zero =>
    intro pos h
    have : text.length ≤ pos := by omega
    simp [rawChunkLoopF, joinAll, List.drop_eq_nil_of_le this]
  | succ f ih =>
    intro pos h
    simp only [rawChunkLoopF]
    by_cases hpos : pos < listLen text
    · rw [if_pos hpos]
      have hlt : pos < text.length := by rw [listLen_eq_length] at hpos; exact hpos
      have hadv := chunkStepEnd_lt text maxSize pos hM
      have hrec := ih (chunkStepEnd text maxSize pos) (by omega)
      simp only [joinAll, List.foldr_cons] at hrec ⊢
      rw [hrec]
      have hdd : text.drop (chunkStepEnd text maxSize pos)
          = (text.drop pos).drop (chunkStepEnd text maxSize pos - pos) := by
        rw [List.drop_drop]
        congr 1
        omega
      rw [hdd, List.take_append_drop]
    · rw [if_neg hpos]
      rw [listLen_eq_length] at hpos
      simp [joinAll, List.drop_eq_nil_of_le (by omega : text.length ≤ pos)]

theorem chunkLoopF_eq_filter_raw (text : List Char) (maxSize : Nat) :
    ∀ (fuel pos : Nat),
      chunkLoopF text maxSize fuel pos =
        ((rawChunkLoopF text maxSize fuel pos).map jsTrim).filter
          (fun c => decide (0 < listLen c)) := by
  intro fuel
  induction fuel with
  | zero => intro pos; simp [chunkLoopF, rawChunkLoopF]
  | succ f ih =>
    intro pos
    simp only [chunkLoopF, rawChunkLoopF]
    by_cases hpos : pos < listLen text
    · rw [if_pos hpos, if_pos hpos]
      simp only [List.map_cons, List.filter_cons]
      by_cases hc : 0 < listLen (jsTrim ((text.drop pos).take (chunkStepEnd text maxSize pos - pos)))
      · simp [hc, ih]
      · simp [hc, ih]
    · rw [if_neg hpos, if_neg hpos]
      simp

theorem dropWhile_head_false {p : Char → Bool} {c : Char} {l : List Char} (h : p c = false) :
    List.dropWhile p (c :: l) = c :: l := by
  simp [List.dropWhile, h]

theorem jsTrim_eq_self {l : List Char} (h1 : l.dropWhile isJsSpace = l)
    (h2 : l.reverse.dropWhile isJsSpace = l.reverse) : jsTrim l = l := by
  unfold jsTrim
  rw [h1, h2, List.reverse_reverse]

theorem lastIdxAux_replicate_skip {p c : Char} {pat2 : List Char}
    (hpc : (p == c) = false) (fromIdx : Nat) :
    ∀ (n : Nat) (l2 : List Char) (i : Nat) (best : Option Nat),
      lastIdxAux (p :: pat2) fromIdx (List.replicate n c ++ l2) i best
        = lastIdxAux (p :: pat2) fromIdx l2 (i + n) best := by
  intro n
  induction n with
  | zero => intro l2 i best; simp
  | succ m ih =>
    intro l2 i best
    rw [List.replicate_succ, List.cons_append]
    simp only [lastIdxAux]
    have hpref : (p :: pat2).isPrefixOf (c :: (List.replicate m c ++ l2)) = false := by
      simp [List.isPrefixOf, hpc]
    rw [if_neg (by simp [hpref])]
    rw [ih l2 (i + 1) best]
    congr 1
    omega

theorem listLen_c1cex : listLen c1cexText = 2906 := by
  rw [listLen_eq_length]
  unfold c1cexText
  simp only [List.length_append, List.length_replicate, List.length_cons, List.length_nil]

theorem jsLastIndexOf_c1cex : jsLastIndexOf c1cexText ['.', ' '] 2900 = 2900 := by
  unfold jsLastIndexOf c1cexText
  rw [lastIdxAux_replicate_skip (by decide) 2900 2900 ('.' :: ' ' :: List.replicate 4 'b') 0 none]
  have h : lastIdxAux ['.', ' '] 2900 ('.' :: ' ' :: List.replicate 4 'b') (0 + 2900) none
      = some 2900 := by decide
  rw [h]
  norm_num

theorem chunkStepEnd_c1cex_0 : chunkStepEnd c1cexText 2900 0 = 2901 := by
  unfold chunkStepEnd
  dsimp only
  rw [listLen_c1cex]
  rw [if_pos (by norm_num)]
  rw [show (0 + 2900 : Nat) = 2900 from by norm_num]
  rw [jsLastIndexOf_c1cex]
  have hb : (if (2900 : Int) = -1 ∨ (2900 : Int) ≤ ((0 : Nat) : Int)
      then jsLastIndexOf c1cexText [' '] 2900 else (2900 : Int)) = (2900 : Int) :=
    if_neg (by norm_num)
  rw [hb]
  rw [if_pos (by norm_num : ((0 : Nat) : Int) < 2900)]
  decide

theorem chunk1_c1cex :
    jsTrim ((c1cexText.drop 0).take (2901 - 0)) = List.replicate 2900 'a' ++ ['.'] := by
  have htake : (c1cexText.drop 0).take (2901 - 0) = List.replicate 2900 'a' ++ ['.'] := by
    rw [List.drop_zero, Nat.sub_zero]
    unfold c1cexText
    rw [List.take_append_eq_append_take]
    rw [List.take_replicate, List.length_replicate]
    rw [show (2901 ⊓ 2900 : Nat) = 2900 from by norm_num]
    rw [show (2901 - 2900 : Nat) = 1 from by norm_num]
    rfl
  rw [htake]
  apply jsTrim_eq_self
  · rw [show (2900 : Nat) = 2899 + 1 from by norm_num, List.replicate_succ, List.cons_append]
    exact dropWhile_head_false (by decide)
  · rw [List.reverse_append, List.reverse_replicate]
    simp only [List.reverse_cons, List.reverse_nil, List.nil_append, List.singleton_append]
    exact dropWhile_head_false (by decide)

theorem listLen_chunk1_c1cex : listLen (List.replicate 2900 'a' ++ ['.']) = 2901 := by
  rw [listLen_eq_length]
  simp only [List.length_append, List.length_replicate, List.length_cons, List.length_nil]

theorem chunkStepEnd_c1cex_2901 : chunkStepEnd c1cexText 2900 2901 = 5801 := by
  unfold chunkStepEnd
  dsimp only
  rw [listLen_c1cex]
  rw [if_neg (by norm_num)]

theorem chunk2_c1cex :
    jsTrim ((c1cexText.drop 2901).take (5801 - 2901)) = List.replicate 4 'b' := by
  have hdrop : c1cexText.drop 2901 = ' ' :: List.replicate 4 'b' := by
    unfold c1cexText
    rw [List.drop_append_eq_append_drop]
    rw [List.drop_eq_nil_of_le (by rw [List.length_replicate]; norm_num)]
    rw [List.length_replicate]
    rw [show (2901 - 2900 : Nat) = 1 from by norm_num]
    rfl
  rw [hdrop]
  rw [show (5801 - 2901 : Nat) = 2900 from by norm_num]
  have htake : (' ' :: List.replicate 4 'b').take 2900 = ' ' :: List.replicate 4 'b' := by
    apply List.take_of_length_le
    simp only [List.length_cons, List.length_replicate]
    norm_num
  rw [htake]
  decide

theorem chunkLoopF_c1cex_step0 (f : Nat) :
    chunkLoopF c1cexText 2900 (f + 1) 0
      = (List.replicate 2900 'a' ++ ['.']) :: chunkLoopF c1cexText 2900 f 2901 := by
  simp only [chunkLoopF]
  rw [listLen_c1cex]
  rw [if_pos (by norm_num : (0 : Nat) < 2906)]
  rw [chunkStepEnd_c1cex_0, chunk1_c1cex, listLen_chunk1_c1cex]
  rw [if_pos (by norm_num : (0 : Nat) < 2901)]

theorem chunkLoopF_c1cex_step1 (f : Nat) :
    chunkLoopF c1cexText 2900 (f + 1) 2901
      = List.replicate 4 'b' :: chunkLoopF c1cexText 2900 f 5801 := by
  simp only [chunkLoopF]
  rw [listLen_c1cex]
  rw [if_pos (by norm_num : (2901 : Nat) < 2906)]
  rw [chunkStepEnd_c1cex_2901, chunk2_c1cex]
  rw [show listLen (List.replicate 4 'b') = 4 from by decide]
  rw [if_pos (by norm_num : (0 : Nat) < 4)]

theorem chunkLoopF_c1cex_step2 (f : Nat) :
    chunkLoopF c1cexText 2900 (f + 1) 5801 = [] := by
  simp only [chunkLoopF]
  rw [listLen_c1cex]
  rw [if_neg (by norm_num : ¬ (5801 : Nat) < 2906)]

theorem chunkText_c1cex_eval :
    chunkText c1cexText MAX_CHUNK_SIZE
      = [List.replicate 2900 'a' ++ ['.'], List.replicate 4 'b'] := by
  unfold chunkText MAX_CHUNK_SIZE
  rw [listLen_c1cex]
  rw [show (2906 : Nat) = 2903 + 1 + 1 + 1 from by norm_num]
  rw [chunkLoopF_c1cex_step0, chunkLoopF_c1cex_step1, chunkLoopF_c1cex_step2]

theorem selectChunks_some_pos {α : Type} (chunks : List α) (s m : Nat) (hm : 1 ≤ m) :
    selectChunks chunks s (some m) = (chunks.drop (s - 1)).take m := by
  unfold selectChunks
  dsimp only
  rw [if_neg (by omega : ¬ m = 0)]
  rw [List.drop_take]
  apply List.take_eq_take.mpr
  rw [List.length_drop]
  omega

theorem selectChunks_none_eq {α : Type} (chunks : List α) (s : Nat) :
    selectChunks chunks s none = chunks.drop (s - 1) := by
  unfold selectChunks
  dsimp only
  rw [List.take_length]

theorem selectChunks_zero_eq_none {α : Type} (chunks : List α) (s : Nat) :
    selectChunks chunks s (some 0) = selectChunks chunks s none := by
  unfold selectChunks
  simp

theorem synthLoop_transient_step (oracle : Nat → SynthResult) (c : List Char)
    (rest : List (List Char)) (i : Nat) (acc : RunResult)
    (h1 : 0 < (jsTrim c).length) (h2 : (jsTrim c).length ≤ 3000)
    (h3 : oracle i = SynthResult.failure false) :
    synthLoop oracle (c :: rest) i acc
      = synthLoop oracle rest (i + 1) { acc with failCount := acc.failCount + 1 } := by
  simp only [synthLoop]
  rw [if_neg (by omega), if_neg (by omega), h3]
  rfl

theorem synthLoop_fatal_step (oracle : Nat → SynthResult) (c : List Char)
    (rest : List (List Char)) (i : Nat) (acc : RunResult)
    (h1 : 0 < (jsTrim c).length) (h2 : (jsTrim c).length ≤ 3000)
    (h3 : oracle i = SynthResult.failure true) :
    synthLoop oracle (c :: rest) i acc = { acc with failCount := acc.failCount + 1 } := by
  simp only [synthLoop]
  rw [if_neg (by omega), if_neg (by omega), h3]
  rfl

theorem synthLoop_success_step (oracle : Nat → SynthResult) (c : List Char)
    (rest : List (List Char)) (i : Nat) (acc : RunResult) (buf : List Nat)
    (h1 : 0 < (jsTrim c).length) (h2 : (jsTrim c).length ≤ 3000)
    (h3 : oracle i = SynthResult.success buf) (h4 : 0 < buf.length) :
    synthLoop oracle (c :: rest) i acc
      = synthLoop oracle rest (i + 1)
          { acc with audioBuffers := acc.audioBuffers ++ [buf],
                     successCount := acc.successCount + 1 } := by
  simp only [synthLoop]
  rw [if_neg (by omega), if_neg (by omega), h3]
  dsimp only
  rw [if_pos h4]

/-! ### Claim theorems -/

/-- C1 (counterexample): on a 2906-character text whose ". " boundary starts
exactly at index 2900, the chunking loop with the configured maximum 2900
produces two chunks of trimmed lengths 2901 and 4 — the first, non-last chunk
exceeds the maximum, refuting "length ≤ M for every chunk but the last". -/
theorem chunk_over_max_cex :
    (chunkText c1cexText MAX_CHUNK_SIZE).map listLen = [2901, 4] := by
  rw [chunkText_c1cex_eval]
  simp only [List.map_cons, List.map_nil, listLen_chunk1_c1cex]
  rw [show listLen (List.replicate 4 'b') = 4 from by decide]

/-- C1 (amended): every chunk the loop produces — last or not — has trimmed
length at most `maxSize + 1` (2901 for the configured 2900); the stated bound
`maxSize` can be exceeded by exactly one character when a ". " boundary starts
exactly at `cursor + maxSize`, since the loop then sets the chunk end to
`boundary + 1`. -/
theorem chunk_length_le_succ_max (text : List Char) (maxSize : Nat) (c : List Char)
    (h : c ∈ chunkText text maxSize) : c.length ≤ maxSize + 1 := by
  unfold chunkText at h
  exact chunkLoopF_mem_length_le text maxSize (listLen text) 0 c h

/-- Witness for `chunk_length_le_succ_max` at a concrete input. -/
theorem chunk_length_le_succ_max_witness :
    (['a'] ∈ chunkText ("ab".toList) 1) ∧ ['a'].length ≤ 1 + 1 :=
  ⟨by decide, chunk_length_le_succ_max ("ab".toList) 1 ['a'] (by decide)⟩

/-- C2: for every text and positive chunk size, the raw (untrimmed) cursor
segments of the chunking loop concatenate to exactly the input text — no
character is lost or duplicated across chunk boundaries — and the loop's
output is precisely those raw segments trimmed, with the trimmed-empty ones
dropped. -/
theorem raw_chunks_reconstruct (text : List Char) (maxSize : Nat) (h : 0 < maxSize) :
    joinAll (rawChunkText text maxSize) = text ∧
    chunkText text maxSize
      = ((rawChunkText text maxSize).map jsTrim).filter (fun c => decide (0 < listLen c)) := by
  constructor
  · unfold rawChunkText
    rw [listLen_eq_length]
    have hj := rawChunkLoopF_join text maxSize h text.length 0 (by omega)
    simpa using hj
  · unfold chunkText rawChunkText
    exact chunkLoopF_eq_filter_raw text maxSize (listLen text) 0

/-- Witness for `raw_chunks_reconstruct` at a concrete input. -/
theorem raw_chunks_reconstruct_witness :
    0 < 3 ∧
    (joinAll (rawChunkText ("ab cd".toList) 3) = "ab cd".toList ∧
      chunkText ("ab cd".toList) 3
        = ((rawChunkText ("ab cd".toList) 3).map jsTrim).filter (fun c => decide (0 < listLen c))) :=
  ⟨by norm_num, raw_chunks_reconstruct ("ab cd".toList) 3 (by norm_num)⟩

/-- C3 (counterexample): the normalizer applied to
"Page\n\n-- 3 of 10 --\nHello   world\n" does not return "Hello world" —
the word "Page" is not removed by any of the five replacements. -/
theorem cleanText_example_cex :
    decide (cleanText ("Page\n\n-- 3 of 10 --\nHello   world\n".toList)
      = "Hello world".toList) = false := by decide

/-- C3 (amended): the normalizer applied to
"Page\n\n-- 3 of 10 --\nHello   world\n" returns exactly
"Page Hello world". -/
theorem cleanText_example_amended :
    cleanText ("Page\n\n-- 3 of 10 --\nHello   world\n".toList)
      = "Page Hello world".toList := by decide

/-- C4 (counterexample): the normalizer is not idempotent: on "aééb" the
non-ASCII replacement (which runs after whitespace collapsing) produces two
adjacent spaces, which a second application collapses. -/
theorem cleanText_idem_cex :
    decide (cleanText (cleanText ("aééb".toList)) = cleanText ("aééb".toList)) = false := by
  decide

/-- C4 (amended): the normalizer is idempotent on every input whose
normalized form is a fixed point of the marker-removal and
whitespace-collapsing stages — the two stages whose effects a first pass can
itself recreate (marker removal by splicing text into a new marker, the
non-ASCII blanking by creating uncollapsed double spaces). -/
theorem cleanText_idem_of_fixed (s : List Char)
    (h1 : removeMarkers (cleanText s) = cleanText s)
    (h2 : collapseWs (cleanText s) = cleanText s) :
    cleanText (cleanText s) = cleanText s := by
  have hnl : ∀ c ∈ cleanText s, c ≠ '\n' := by
    intro c hc hceq
    have hpr := cleanText_mem_printable hc
    rw [hceq] at hpr
    have h10 : ('\n').toNat = 10 := by decide
    omega
  conv_lhs => rw [cleanText]
  rw [h1]
  rw [show collapseNlRuns (cleanText s) = cleanText s from collapseNlRunsF_no_nl hnl _]
  rw [mapNewlines_no_nl hnl]
  rw [h2]
  rw [mapNonAscii_printable_id (fun c hc => cleanText_mem_printable hc)]
  simp only [cleanText]
  exact jsTrim_idem _

/-- Witness for `cleanText_idem_of_fixed` at a concrete input. -/
theorem cleanText_idem_of_fixed_witness :
    (removeMarkers (cleanText ("ab cd".toList)) = cleanText ("ab cd".toList)) ∧
    (collapseWs (cleanText ("ab cd".toList)) = cleanText ("ab cd".toList)) ∧
    cleanText (cleanText ("ab cd".toList)) = cleanText ("ab cd".toList) :=
  ⟨by decide, by decide, cleanText_idem_of_fixed ("ab cd".toList) (by decide) (by decide)⟩

/-- C5 (counterexample): the normalizer's output can contain a page-marker
substring: removing "-- 1 of 2 --" from "-- -- 1 of 2 --3 of 4 --" splices
the surrounding text into the fresh marker "-- 3 of 4 --", which the single
left-to-right pass never rescans. -/
theorem cleanText_marker_cex :
    hasMarkerMatch (cleanText ("-- -- 1 of 2 --3 of 4 --".toList)) = true := by decide

/-- C5 (amended): every character of the normalizer's output is printable
ASCII (0x20-0x7E); in particular the output contains no newline character.
The page-marker-freedom half of the claim does not hold (see the
counterexample). -/
theorem cleanText_printable_inv (s : List Char) (c : Char) (h : c ∈ cleanText s) :
    (0x20 ≤ c.toNat ∧ c.toNat ≤ 0x7e) ∧ (c == '\n') = false := by
  have hp := cleanText_mem_printable h
  refine ⟨hp, ?_⟩
  cases hbe : c == '\n' with
  | false => rfl
  | true =>
    exfalso
    have hceq : c = '\n' := eq_of_beq hbe
    rw [hceq] at hp
    have h10 : ('\n').toNat = 10 := by decide
    omega

/-- Witness for `cleanText_printable_inv` at a concrete input. -/
theorem cleanText_printable_inv_witness :
    ('a' ∈ cleanText ("a".toList)) ∧
    ((0x20 ≤ 'a'.toNat ∧ 'a'.toNat ≤ 0x7e) ∧ ('a' == '\n') = false) :=
  ⟨by decide, cleanText_printable_inv ("a".toList) 'a' (by decide)⟩

/-- C6: a fatal synthesis error (insufficient funds) aborts the loop — the
result does not depend on the remaining chunks; when it hits the very first
processed chunk starting from a fresh state, the run ends with 0 successes,
1 failure and no output file; when earlier chunks already produced buffers,
the partial concatenation is still written. -/
theorem fatal_error_aborts :
    (∀ (oracle : Nat → SynthResult) (c : List Char) (rest : List (List Char))
        (i : Nat) (acc : RunResult),
        0 < (jsTrim c).length → (jsTrim c).length ≤ 3000 →
        oracle i = SynthResult.failure true →
        synthLoop oracle (c :: rest) i acc = { acc with failCount := acc.failCount + 1 }) ∧
    (∀ (oracle : Nat → SynthResult) (c : List Char) (rest : List (List Char)),
        0 < (jsTrim c).length → (jsTrim c).length ≤ 3000 →
        oracle 0 = SynthResult.failure true →
        synthLoop oracle (c :: rest) 0 ⟨[], 0, 0⟩ = ⟨[], 0, 1⟩ ∧
        outputFile (synthLoop oracle (c :: rest) 0 ⟨[], 0, 0⟩) = none) ∧
    (∀ (oracle : Nat → SynthResult) (c : List Char) (rest : List (List Char))
        (i : Nat) (acc : RunResult),
        0 < (jsTrim c).length → (jsTrim c).length ≤ 3000 →
        oracle i = SynthResult.failure true →
        0 < acc.audioBuffers.length →
        outputFile (synthLoop oracle (c :: rest) i acc) = some (joinAll acc.audioBuffers)) := by
  refine ⟨?_, ?_, ?_⟩
  · intro oracle c rest i acc h1 h2 h3
    exact synthLoop_fatal_step oracle c rest i acc h1 h2 h3
  · intro oracle c rest h1 h2 h3
    rw [synthLoop_fatal_step oracle c rest 0 ⟨[], 0, 0⟩ h1 h2 h3]
    constructor
    · rfl
    · rfl
  · intro oracle c rest i acc h1 h2 h3 h4
    rw [synthLoop_fatal_step oracle c rest i acc h1 h2 h3]
    unfold outputFile
    rw [if_pos h4]

/-- Witness for `fatal_error_aborts` at concrete inputs. -/
theorem fatal_error_aborts_witness :
    (synthLoop (fun _ => SynthResult.failure true) [['a'], ['b']] 5 ⟨[[2]], 1, 2⟩
      = { audioBuffers := [[2]], successCount := 1, failCount := 3 }) ∧
    (synthLoop (fun _ => SynthResult.failure true) [['a']] 0 ⟨[], 0, 0⟩ = ⟨[], 0, 1⟩ ∧
      outputFile (synthLoop (fun _ => SynthResult.failure true) [['a']] 0 ⟨[], 0, 0⟩) = none) ∧
    outputFile (synthLoop (fun _ => SynthResult.failure true) [['a'], ['b']] 0 ⟨[[1]], 1, 0⟩)
      = some (joinAll [[1]]) :=
  ⟨fatal_error_aborts.1 (fun _ => SynthResult.failure true) ['a'] [['b']] 5 ⟨[[2]], 1, 2⟩
      (by decide) (by decide) rfl,
   fatal_error_aborts.2.1 (fun _ => SynthResult.failure true) ['a'] [] (by decide) (by decide) rfl,
   fatal_error_aborts.2.2 (fun _ => SynthResult.failure true) ['a'] [['b']] 0 ⟨[[1]], 1, 0⟩
      (by decide) (by decide) rfl (by decide)⟩

/-- C7: a transient (non-fatal) synthesis error is counted as a failure and
the loop moves on to the next chunk with the same oracle — no retry of the
failed index; in the 3-chunk scenario where only the second synthesis fails
transiently, the run reports 2 successes, 1 failure, and writes the
concatenation of the first and third chunks' audio, in order. -/
theorem transient_error_continues :
    (∀ (oracle : Nat → SynthResult) (c : List Char) (rest : List (List Char))
        (i : Nat) (acc : RunResult),
        0 < (jsTrim c).length → (jsTrim c).length ≤ 3000 →
        oracle i = SynthResult.failure false →
        synthLoop oracle (c :: rest) i acc
          = synthLoop oracle rest (i + 1) { acc with failCount := acc.failCount + 1 }) ∧
    (∀ (oracle : Nat → SynthResult) (c1 c2 c3 : List Char) (a1 a3 : List Nat),
        0 < (jsTrim c1).length → (jsTrim c1).length ≤ 3000 →
        0 < (jsTrim c2).length → (jsTrim c2).length ≤ 3000 →
        0 < (jsTrim c3).length → (jsTrim c3).length ≤ 3000 →
        oracle 0 = SynthResult.success a1 → oracle 1 = SynthResult.failure false →
        oracle 2 = SynthResult.success a3 → 0 < a1.length → 0 < a3.length →
        (synthLoop oracle [c1, c2, c3] 0 ⟨[], 0, 0⟩).successCount = 2 ∧
        (synthLoop oracle [c1, c2, c3] 0 ⟨[], 0, 0⟩).failCount = 1 ∧
        outputFile (synthLoop oracle [c1, c2, c3] 0 ⟨[], 0, 0⟩) = some (a1 ++ a3)) := by
  refine ⟨?_, ?_⟩
  · intro oracle c rest i acc h1 h2 h3
    exact synthLoop_transient_step oracle c rest i acc h1 h2 h3
  · intro oracle c1 c2 c3 a1 a3 h11 h12 h21 h22 h31 h32 ho0 ho1 ho2 ha1 ha3
    have hrun : synthLoop oracle [c1, c2, c3] 0 ⟨[], 0, 0⟩
        = { audioBuffers := [a1, a3], successCount := 2, failCount := 1 } := by
      rw [synthLoop_success_step oracle c1 [c2, c3] 0 ⟨[], 0, 0⟩ a1 h11 h12 ho0 ha1]
      rw [synthLoop_transient_step oracle c2 [c3] 1 _ h21 h22 ho1]
      rw [synthLoop_success_step oracle c3 [] 2 _ a3 h31 h32 ho2 ha3]
      rfl
    rw [hrun]
    refine ⟨rfl, rfl, ?_⟩
    unfold outputFile
    rw [if_pos (by norm_num)]
    simp [joinAll]

/-- Witness for `transient_error_continues` at concrete inputs. -/
theorem transient_error_continues_witness :
    (synthLoop (fun _ => SynthResult.failure false) [['a']] 7 ⟨[], 0, 0⟩
      = synthLoop (fun _ => SynthResult.failure false) [] 8 ⟨[], 0, 1⟩) ∧
    ((synthLoop (fun i => if i = 0 then SynthResult.success [1]
        else if i = 1 then SynthResult.failure false
        else SynthResult.success [2]) [['x'], ['y'], ['z']] 0 ⟨[], 0, 0⟩).successCount = 2 ∧
      (synthLoop (fun i => if i = 0 then SynthResult.success [1]
        else if i = 1 then SynthResult.failure false
        else SynthResult.success [2]) [['x'], ['y'], ['z']] 0 ⟨[], 0, 0⟩).failCount = 1 ∧
      outputFile (synthLoop (fun i => if i = 0 then SynthResult.success [1]
        else if i = 1 then SynthResult.failure false
        else SynthResult.success [2]) [['x'], ['y'], ['z']] 0 ⟨[], 0, 0⟩) = some ([1] ++ [2])) :=
  ⟨transient_error_continues.1 (fun _ => SynthResult.failure false) ['a'] [] 7 ⟨[], 0, 0⟩
      (by decide) (by decide) rfl,
   transient_error_continues.2 (fun i => if i = 0 then SynthResult.success [1]
        else if i = 1 then SynthResult.failure false
        else SynthResult.success [2]) ['x'] ['y'] ['z'] [1] [2]
      (by decide) (by decide) (by decide) (by decide) (by decide) (by decide)
      rfl rfl rfl (by decide) (by decide)⟩

/-- C8: with a positive configured cap the selected range is exactly the
half-open index interval `[startChunk - 1, startChunk - 1 + cap)` clamped to
the sequence length (equivalently: drop `startChunk - 1`, then take `cap`);
with no cap it is the full remainder from `startChunk - 1`; in particular,
cap 2 with start chunk 2 on a 5-chunk document selects exactly chunks 2 and
3, in that order. -/
theorem select_range_spec :
    (∀ (α : Type) (chunks : List α) (s m : Nat), 1 ≤ s → 1 ≤ m →
      selectChunks chunks s (some m) = (chunks.drop (s - 1)).take m) ∧
    (∀ (α : Type) (chunks : List α) (s : Nat), 1 ≤ s →
      selectChunks chunks s none = chunks.drop (s - 1)) ∧
    (∀ (α : Type) (a b c d e : α), selectChunks [a, b, c, d, e] 2 (some 2) = [b, c]) := by
  refine ⟨?_, ?_, ?_⟩
  · intro α chunks s m _ hm
    exact selectChunks_some_pos chunks s m hm
  · intro α chunks s _
    exact selectChunks_none_eq chunks s
  · intro α a b c d e
    rfl

/-- Witness for `select_range_spec` at concrete inputs. -/
theorem select_range_spec_witness :
    (1 ≤ 2 ∧ 1 ≤ 2 ∧
      selectChunks [10, 20, 30, 40, 50] 2 (some 2) = ([10, 20, 30, 40, 50].drop (2 - 1)).take 2) ∧
    (1 ≤ 3 ∧ selectChunks [10, 20, 30] 3 none = [10, 20, 30].drop (3 - 1)) ∧
    selectChunks [1, 2, 3, 4, 5] 2 (some 2) = [2, 3] :=
  ⟨⟨by norm_num, by norm_num,
      select_range_spec.1 Nat [10, 20, 30, 40, 50] 2 2 (by norm_num) (by norm_num)⟩,
   ⟨by norm_num, select_range_spec.2.1 Nat [10, 20, 30] 3 (by norm_num)⟩,
   select_range_spec.2.2 Nat 1 2 3 4 5⟩

/-- C9: the chunking loop terminates: every iteration strictly advances the
cursor (`pos < chunkStepEnd text maxSize pos` whenever `maxSize` is
positive, whether the step is a hard cut or a boundary cut, and independently
of whether the trimmed chunk was empty and skipped), and consequently any
fuel of at least `text.length` yields the same, final chunk list. -/
theorem chunk_loop_terminates :
    (∀ (text : List Char) (maxSize pos : Nat), 0 < maxSize →
      pos < chunkStepEnd text maxSize pos) ∧
    (∀ (text : List Char) (maxSize fuel : Nat), 0 < maxSize → text.length ≤ fuel →
      chunkLoopF text maxSize fuel 0 = chunkText text maxSize) := by
  constructor
  · intro text maxSize pos hM
    exact chunkStepEnd_lt text maxSize pos hM
  · intro text maxSize fuel hM hf
    unfold chunkText
    rw [listLen_eq_length]
    exact chunkLoopF_fuel_irrel text maxSize hM fuel text.length 0 (by omega) (by omega)

/-- Witness for `chunk_loop_terminates` at concrete inputs. -/
theorem chunk_loop_terminates_witness :
    0 < 1 ∧ (0 : Nat) < chunkStepEnd ("ab".toList) 1 0 ∧
      chunkLoopF ("ab".toList) 1 5 0 = chunkText ("ab".toList) 1 :=
  ⟨by norm_num,
   chunk_loop_terminates.1 ("ab".toList) 1 0 (by norm_num),
   chunk_loop_terminates.2 ("ab".toList) 1 5 (by norm_num) (by decide)⟩

/-- C10: configuring the chunk cap as 0 does not select zero chunks: since 0
is falsy in the source's conditional, it takes the same branch as the
unconfigured (`null`) cap, so the whole remainder from the start index is
selected. -/
theorem zero_cap_processes_all :
    (∀ (α : Type) (chunks : List α) (s : Nat),
      selectChunks chunks s (some 0) = selectChunks chunks s none) ∧
    (∀ (α : Type) (chunks : List α) (s : Nat), 1 ≤ s →
      selectChunks chunks s (some 0) = chunks.drop (s - 1)) := by
  constructor
  · intro α chunks s
    exact selectChunks_zero_eq_none chunks s
  · intro α chunks s _
    rw [selectChunks_zero_eq_none chunks s]
    exact selectChunks_none_eq chunks s

/-- Witness for `zero_cap_processes_all` at concrete inputs. -/
theorem zero_cap_processes_all_witness :
    (selectChunks [7, 8, 9] 2 (some 0) = selectChunks [7, 8, 9] 2 none) ∧
    (1 ≤ 2 ∧ selectChunks [7, 8, 9] 2 (some 0) = [7, 8, 9].drop (2 - 1)) :=
  ⟨zero_cap_processes_all.1 Nat [7, 8, 9] 2,
   ⟨by norm_num, zero_cap_processes_all.2 Nat [7, 8, 9] 2 (by norm_num)⟩⟩
